import Mathlib

/-!
# Verification of the property-listing CRUD core (`src/server.js`)

Shallow embedding of the JSON data model, the `validateProperty` validator,
the four route handlers (`GET/POST/PUT/DELETE /api/imoveis`), and the
`readData`/`writeData` persistence pair (`JSON.parse` / `JSON.stringify`
with 2-space indentation).

Modelling conventions:
* JSON values are `JVal`; JS numbers are modelled as integers (`Int`) —
  no claim involves fractional or floating-point arithmetic.
* A JS object is an ordered association list `List (String × JVal)`;
  objects built by the program have pairwise-distinct keys, matching JS.
* Reading an absent key yields `none`, modelling JS `undefined`.
* The persisted state is the parsed document; a handler's effect is a pure
  function `state → (response, state)`.  The freshly generated id
  `Date.now().toString()` is passed in as the `now : Nat` parameter.
-/

/-- JSON values (JS numbers modelled as integers). -/
inductive JVal : Type where
  | jnull : JVal
  | jbool : Bool → JVal
  | jnum : Int → JVal
  | jstr : String → JVal
  | jarr : List JVal → JVal
  | jobj : List (String × JVal) → JVal

/-- A JS object: ordered association list of fields. -/
abbrev Obj := List (String × JVal)

/-- First-match field lookup, `o[k]`; `none` models `undefined`. -/
def getF : Obj → String → Option JVal
  | [], _ => none
  | (k0, v0) :: rest, k => if k0 = k then some v0 else getF rest k

/-- JS property assignment `o[k] = v`: overwrite the existing entry in
place, or append a new entry at the end of the key order. -/
def setF : Obj → String → JVal → Obj
  | [], k, v => [(k, v)]
  | (k0, v0) :: rest, k, v =>
      if k0 = k then (k, v) :: rest else (k0, v0) :: setF rest k v

/-- JS truthiness of a value: `false`, `0`, `""` and `null` are falsy
(`NaN` and `undefined` do not occur among JSON values). -/
def truthy : JVal → Bool
  | .jnull => false
  | .jbool b => b
  | .jnum n => !(n == 0)
  | .jstr s => !(s == "")
  | .jarr _ => true
  | .jobj _ => true

/-- Truthiness of a field read; an absent key (`undefined`) is falsy. -/
def truthyOpt : Option JVal → Bool
  | none => false
  | some v => truthy v

/-- `o[k] === 0` (strict equality against the number literal `0`). -/
def isZeroOpt : Option JVal → Bool
  | some (.jnum n) => n == 0
  | _ => false

/-- `typeof o[k] === "number"`. -/
def isNumOpt : Option JVal → Bool
  | some (.jnum _) => true
  | _ => false

/-- `p.id === pid` where `pid` is the (string) path parameter: true exactly
when `p` is an object whose `id` field is the string `pid`. -/
def idEq (p : JVal) (pid : String) : Bool :=
  match p with
  | .jobj o =>
      match getF o "id" with
      | some (.jstr s) => s == pid
      | _ => false
  | _ => false

/-! ## Validator -/

/-- The `requiredFields` array of `validateProperty`, in source order. -/
def requiredFields : List String :=
  ["title", "address", "bedrooms", "bathrooms", "suites", "built_area",
   "total_area", "price", "condition", "description", "cover_image_url",
   "photos_google_drive_link"]

/-- The message `O campo '<field>' é obrigatório.` -/
def requiredMsg (f : String) : String :=
  "O campo \x27" ++ f ++ "\x27 é obrigatório."

/-- The message of the numeric-type check. -/
def typeMsg : String :=
  "Campos de quartos, banheiros, suítes e áreas devem ser números."

/-- The per-field failure condition of the required-field loop:
`!property[field] && property[field] !== 0`. -/
def fieldFails (p : Obj) (f : String) : Bool :=
  !truthyOpt (getF p f) && !isZeroOpt (getF p f)

/-- `validateProperty`: first missing required field wins; then the
`typeof` chain over `bedrooms`, `bathrooms`, `suites`, `built_area`,
`total_area` (the source omits `price` from the chain); `none` on success. -/
def validateProperty (p : Obj) : Option String :=
  match requiredFields.find? (fun f => fieldFails p f) with
  | some f => some (requiredMsg f)
  | none =>
      if !isNumOpt (getF p "bedrooms") || !isNumOpt (getF p "bathrooms")
          || !isNumOpt (getF p "suites") || !isNumOpt (getF p "built_area")
          || !isNumOpt (getF p "total_area") then
        some typeMsg
      else
        none

/-! ## Route handlers -/

/-- Outcome of one request, by HTTP status of the source handler. -/
inductive ApiResult : Type where
  | ok : JVal → ApiResult                 -- 200/201 with a JSON body
  | validationError : String → ApiResult  -- 400 `{message}`
  | notFound : String → ApiResult         -- 404 `{message}`
  | serverError : ApiResult               -- 500 catch branch

/-- `GET /api/imoveis`: `res.json(data.properties || [])`. -/
def listImoveis (doc : Obj) : JVal :=
  match getF doc "properties" with
  | some v => if truthy v then v else .jarr []
  | none => .jarr []

/-- Decimal digits of a natural number, most significant first
(`Nat.toString` semantics, fuel-based like core `toDigitsCore`). -/
def natDecAux : Nat → Nat → List Char
  | 0, _ => []
  | fuel + 1, n =>
      if n < 10 then [Char.ofNat (48 + n)]
      else natDecAux fuel (n / 10) ++ [Char.ofNat (48 + n % 10)]

/-- Decimal representation of a natural number. -/
def natDec (n : Nat) : List Char := natDecAux (n + 1) n

/-- `Date.now().toString()` with `now` the current timestamp. -/
def freshId (now : Nat) : String := ⟨natDec now⟩

/-- `POST /api/imoveis`: validate, set `newProperty.id`, default a falsy or
missing `properties` to `[]`, push, persist, return 201 with the stored
record.  A truthy non-array `properties` makes `.push` throw (caught as a
500); the persisted state is then unchanged since `writeData` never ran. -/
def createImovel (now : Nat) (doc : Obj) (body : Obj) : ApiResult × Obj :=
  match validateProperty body with
  | some msg => (.validationError msg, doc)
  | none =>
      let stored := setF body "id" (.jstr (freshId now))
      let doc1 :=
        if truthyOpt (getF doc "properties") then doc
        else setF doc "properties" (.jarr [])
      match getF doc1 "properties" with
      | some (.jarr xs) =>
          (.ok (.jobj stored), setF doc1 "properties" (.jarr (xs ++ [.jobj stored])))
      | _ => (.serverError, doc)

/-- Object-literal spread `{...a, ...b}`: `a`'s keys in order with `b`'s
values where shared, then `b`'s new keys in order. -/
def spreadObj (a b : Obj) : Obj :=
  a.map (fun kv => (kv.1, ((getF b kv.1).getD kv.2)))
    ++ b.filter (fun kv => (getF a kv.1).isNone)

/-- `PUT /api/imoveis/:id`: validate, find the first record whose `id`
equals the path id (404 if none), replace it by
`{...existing, ...body, id: pid}`, persist, return the merged record.
When `properties` is absent or not an array the handler throws before any
write (caught as a 500).  A matched element is necessarily an object
(`idEq` fails on non-objects); the `.serverError` inner fallback is
unreachable. -/
def updateImovel (pid : String) (doc : Obj) (body : Obj) : ApiResult × Obj :=
  match validateProperty body with
  | some msg => (.validationError msg, doc)
  | none =>
      match getF doc "properties" with
      | some (.jarr xs) =>
          match xs.findIdx? (fun p => idEq p pid) with
          | none => (.notFound "Imóvel não encontrado.", doc)
          | some i =>
              match xs[i]? with
              | some (.jobj o) =>
                  let merged := setF (spreadObj o body) "id" (.jstr pid)
                  (.ok (.jobj merged),
                   setF doc "properties" (.jarr (xs.set i (.jobj merged))))
              | _ => (.serverError, doc)
      | _ => (.serverError, doc)

/-- `DELETE /api/imoveis/:id`: filter out every record whose `id` equals
the path id; 404 (and no write) if the length did not change, else persist
and report success.  When `properties` is absent or not an array the
handler throws reading `.length` (caught as a 500). -/
def deleteImovel (pid : String) (doc : Obj) : ApiResult × Obj :=
  match getF doc "properties" with
  | some (.jarr xs) =>
      let ys := xs.filter (fun p => !idEq p pid)
      if ys.length = xs.length then
        (.notFound "Imóvel não encontrado para apagar.", doc)
      else
        (.ok (.jobj [("message", .jstr "Imóvel apagado com sucesso.")]),
         setF doc "properties" (.jarr ys))
  | _ => (.serverError, doc)

/-- The string `id` of a record, if any (non-object elements and elements
without a string `id` have none). -/
def recId : JVal → Option String
  | .jobj o =>
      match getF o "id" with
      | some (.jstr s) => some s
      | _ => none
  | _ => none

/-- The ids of the records of a collection. -/
def collIds (xs : List JVal) : List String := xs.filterMap recId

/-- The ids of the persisted collection of a document. -/
def docIds (doc : Obj) : List String :=
  match getF doc "properties" with
  | some (.jarr xs) => collIds xs
  | _ => []

/-- The six numeric fields of the data model. -/
def numericFields : List String :=
  ["bedrooms", "bathrooms", "suites", "built_area", "total_area", "price"]

/-- The five fields actually covered by the `typeof` chain of
`validateProperty` (`price` is absent from the chain in the source). -/
def typeCheckedFields : List String :=
  ["bedrooms", "bathrooms", "suites", "built_area", "total_area"]

/-! ## Lemmas about field access -/

theorem getF_setF (o : Obj) (k : String) (v : JVal) (k' : String) :
    getF (setF o k v) k' = if k = k' then some v else getF o k' := by
  induction o with
  | nil => simp [setF, getF]
  | cons kv rest ih =>
      obtain ⟨k0, v0⟩ := kv
      simp only [setF]
      by_cases h0 : k0 = k
      · subst h0
        simp only [if_pos rfl, getF]
        by_cases h1 : k0 = k' <;> simp [h1]
      · simp only [if_neg h0, getF, ih]
        by_cases h1 : k0 = k'
        · subst h1
          have h2 : ¬ k = k0 := fun hh => h0 hh.symm
          simp [h2]
        · simp [h1]

theorem getF_append (a b : Obj) (k : String) :
    getF (a ++ b) k = (getF a k).or (getF b k) := by
  induction a with
  | nil => simp [getF]
  | cons kv rest ih =>
      obtain ⟨k0, v0⟩ := kv
      by_cases h : k0 = k <;> simp [getF, h, ih]

theorem getF_spread_map (a b : Obj) (k : String) :
    getF (a.map (fun kv => (kv.1, (getF b kv.1).getD kv.2))) k
      = (getF a k).map (fun v => (getF b k).getD v) := by
  induction a with
  | nil => simp [getF]
  | cons kv rest ih =>
      obtain ⟨k0, v0⟩ := kv
      by_cases hk : k0 = k
      · subst hk; simp [getF]
      · simp [getF, hk, ih]

theorem getF_spread_filter (a b : Obj) (k : String) :
    getF (b.filter (fun kv => (getF a kv.1).isNone)) k
      = if (getF a k).isNone then getF b k else none := by
  induction b with
  | nil =>
      by_cases h : (getF a k).isNone <;> simp [getF, h]
  | cons kv rest ih =>
      obtain ⟨k0, v0⟩ := kv
      by_cases h1 : k0 = k
      · subst h1
        by_cases hq : (getF a k0).isNone <;>
          simp [List.filter_cons, hq, getF, ih]
      · by_cases hq : (getF a k0).isNone <;>
          simp [List.filter_cons, hq, getF, h1, ih]

/-- Field lookup through the spread `{...a, ...b}`: `b` wins, else `a`. -/
theorem getF_spreadObj (a b : Obj) (k : String) :
    getF (spreadObj a b) k = (getF b k).or (getF a k) := by
  unfold spreadObj
  rw [getF_append, getF_spread_map, getF_spread_filter]
  cases ha : getF a k <;> cases hb : getF b k <;> simp [ha, hb, Option.or]

theorem recId_eq_some_iff (p : JVal) (s : String) :
    recId p = some s ↔ idEq p s = true := by
  cases p
  case jobj o =>
    unfold recId idEq
    cases h : getF o "id" with
    | none => simp [h]
    | some v => cases v <;> simp [h]
  all_goals simp [recId, idEq]

theorem mem_collIds (s : String) (xs : List JVal) :
    s ∈ collIds xs ↔ ∃ p ∈ xs, idEq p s = true := by
  simp [collIds, List.mem_filterMap, recId_eq_some_iff]

/-! ## Lemmas about the validator -/

/-- A field read as `undefined` fails the required-field condition. -/
theorem fieldFails_of_missing (p : Obj) (f : String) (h : getF p f = none) :
    fieldFails p f = true := by
  simp [fieldFails, h, truthyOpt, isZeroOpt]

/-- The value `0` passes the required-field condition. -/
theorem fieldFails_zero (p : Obj) (f : String) (h : getF p f = some (.jnum 0)) :
    fieldFails p f = false := by
  simp [fieldFails, h, truthyOpt, truthy, isZeroOpt]

/-- The required-field messages are distinct for distinct fields. -/
theorem requiredMsg_inj {f g : String} (h : requiredMsg f = requiredMsg g) :
    f = g := by
  have hd := congrArg String.data h
  simp only [requiredMsg, String.data_append] at hd
  exact String.ext (List.append_cancel_left (List.append_cancel_right hd))

theorem validateProperty_of_find {p : Obj} {f : String}
    (h : requiredFields.find? (fun g => fieldFails p g) = some f) :
    validateProperty p = some (requiredMsg f) := by
  unfold validateProperty
  rw [h]

/-! ## Concrete records used by counterexamples and witnesses -/

/-- The end-to-end candidate of spec §8: every required field present with
the documented type (`suites` is the literal `0`). -/
def sampleBody : Obj :=
  [("title", .jstr "A"), ("address", .jstr "X"), ("bedrooms", .jnum 2),
   ("bathrooms", .jnum 1), ("suites", .jnum 0), ("built_area", .jnum 50),
   ("total_area", .jnum 60), ("price", .jnum 100000), ("condition", .jstr "new"),
   ("description", .jstr "d"), ("cover_image_url", .jstr "u"),
   ("photos_google_drive_link", .jstr "l")]

/-- `sampleBody` with a non-numeric (string) `price`. -/
def stringPriceBody : Obj := setF sampleBody "price" (.jstr "caro")

/-- `sampleBody` without its `price` field. -/
def noPriceBody : Obj := sampleBody.filter (fun kv => !(kv.1 == "price"))

/-- A document whose collection holds one record with id `"1"`. -/
def oneRecDoc : Obj :=
  [("properties", .jarr [.jobj [("id", .jstr "1"), ("title", .jstr "T")]])]

/-- The type-check message differs from every numeric field's
missing-field message. -/
theorem typeMsg_ne_requiredMsg (f : String) (hf : f ∈ numericFields) :
    typeMsg ≠ requiredMsg f := by
  fin_cases hf <;> decide

/-! ## C5 — numeric zero is present and valid -/

/-- **C5**: a numeric field supplied as the literal `0` passes the
required-field condition, has numeric type, and `validateProperty` never
returns the missing-field error naming it. -/
theorem numericZeroAccepted (p : Obj) (f : String)
    (hf : f ∈ numericFields) (h0 : getF p f = some (.jnum 0)) :
    fieldFails p f = false ∧ isNumOpt (getF p f) = true ∧
    validateProperty p ≠ some (requiredMsg f) := by
  have hff : fieldFails p f = false := fieldFails_zero p f h0
  refine ⟨hff, by simp [h0, isNumOpt], ?_⟩
  intro hcontra
  unfold validateProperty at hcontra
  cases hfind : requiredFields.find? (fun g => fieldFails p g) with
  | none =>
      rw [hfind] at hcontra
      by_cases hc : (!isNumOpt (getF p "bedrooms") || !isNumOpt (getF p "bathrooms")
          || !isNumOpt (getF p "suites") || !isNumOpt (getF p "built_area")
          || !isNumOpt (getF p "total_area")) = true
      · rw [if_pos hc] at hcontra
        exact typeMsg_ne_requiredMsg f hf (Option.some.inj hcontra)
      · rw [if_neg hc] at hcontra
        exact Option.noConfusion hcontra
  | some g =>
      rw [hfind] at hcontra
      injection hcontra with hmsg
      have hgf : g = f := requiredMsg_inj hmsg
      subst hgf
      have hgt := List.find?_some hfind
      simp [hff] at hgt

/-- Witness for `numericZeroAccepted` at `sampleBody` with `suites: 0`. -/
theorem numericZeroAccepted_witness :
    fieldFails sampleBody "suites" = false ∧
    isNumOpt (getF sampleBody "suites") = true ∧
    validateProperty sampleBody ≠ some (requiredMsg "suites") :=
  numericZeroAccepted sampleBody "suites" (by decide) rfl

/-! ## C4 — the numeric-type check (corrected: `price` is not covered) -/

/-- **C4, counterexample**: `price` present as a string passes
`validateProperty` — the `typeof` chain of the source omits `price`, so the
claim "each of the six numeric fields is type-checked" fails. -/
theorem priceTypeUnchecked_counterexample :
    getF stringPriceBody "price" = some (.jstr "caro") ∧
    isNumOpt (getF stringPriceBody "price") = false ∧
    validateProperty stringPriceBody = none :=
  ⟨rfl, rfl, rfl⟩

/-- **C4, amended**: a candidate in which any of the five fields
`bedrooms`, `bathrooms`, `suites`, `built_area`, `total_area` is present
without numeric type is rejected by `validateProperty`; `price`'s type is
not checked. -/
theorem typeCheckedFieldRejected (p : Obj) (f : String)
    (hf : f ∈ typeCheckedFields) (hpres : (getF p f).isSome = true)
    (hnum : isNumOpt (getF p f) = false) :
    (validateProperty p).isSome = true := by
  unfold validateProperty
  cases hfind : requiredFields.find? (fun g => fieldFails p g) with
  | some g => simp
  | none =>
      have hcond : (!isNumOpt (getF p "bedrooms") || !isNumOpt (getF p "bathrooms")
          || !isNumOpt (getF p "suites") || !isNumOpt (getF p "built_area")
          || !isNumOpt (getF p "total_area")) = true := by
        fin_cases hf <;> simp [hnum]
      simp [hcond]

/-- Witness for `typeCheckedFieldRejected`: a string-valued `bedrooms`. -/
theorem typeCheckedFieldRejected_witness :
    (validateProperty (setF sampleBody "bedrooms" (.jstr "dois"))).isSome = true :=
  typeCheckedFieldRejected (setF sampleBody "bedrooms" (.jstr "dois")) "bedrooms"
    (by decide) rfl rfl

/-! ## C6 — missing required field: 400 naming the first failing field -/

/-- **C6**: a candidate missing a required field makes `create` return the
`ValidationError` naming the first failing field in `requiredFields` order,
and the persisted document is unchanged. -/
theorem missingFieldRejected (now : Nat) (doc body : Obj) (g : String)
    (hg : g ∈ requiredFields) (hmiss : getF body g = none) :
    ∃ f, requiredFields.find? (fun fld => fieldFails body fld) = some f ∧
      fieldFails body f = true ∧
      createImovel now doc body = (.validationError (requiredMsg f), doc) := by
  have hfails : fieldFails body g = true := fieldFails_of_missing body g hmiss
  cases hfind : requiredFields.find? (fun fld => fieldFails body fld) with
  | none =>
      exfalso
      have hnone := List.find?_eq_none.mp hfind g hg
      simp [hfails] at hnone
  | some f =>
      refine ⟨f, rfl, List.find?_some hfind, ?_⟩
      unfold createImovel
      rw [validateProperty_of_find hfind]

/-- Witness for `missingFieldRejected`: `sampleBody` without `price`. -/
theorem missingFieldRejected_witness :
    ∃ f, requiredFields.find? (fun fld => fieldFails noPriceBody fld) = some f ∧
      fieldFails noPriceBody f = true ∧
      createImovel 7 [("properties", .jarr [])] noPriceBody
        = (.validationError (requiredMsg f), [("properties", .jarr [])]) :=
  missingFieldRejected 7 [("properties", .jarr [])] noPriceBody "price"
    (by decide) rfl

/-! ## C7 — update on an unknown id: 404 and no mutation -/

/-- **C7**: `update` with a validation-passing candidate and an id matching
no record returns 404 and leaves the persisted document unchanged. -/
theorem updateMissingIdNotFound (pid : String) (doc body : Obj) (xs : List JVal)
    (hprops : getF doc "properties" = some (.jarr xs))
    (hvalid : validateProperty body = none)
    (hnone : ∀ p ∈ xs, idEq p pid = false) :
    updateImovel pid doc body = (.notFound "Imóvel não encontrado.", doc) := by
  have hidx : xs.findIdx? (fun p => idEq p pid) = none :=
    List.findIdx?_eq_none_iff.mpr hnone
  simp only [updateImovel, hvalid, hprops, hidx]

/-- Witness for `updateMissingIdNotFound` on `oneRecDoc` and id `"2"`. -/
theorem updateMissingIdNotFound_witness :
    updateImovel "2" oneRecDoc sampleBody
      = (.notFound "Imóvel não encontrado.", oneRecDoc) :=
  updateMissingIdNotFound "2" oneRecDoc sampleBody
    [.jobj [("id", .jstr "1"), ("title", .jstr "T")]] rfl rfl (by decide)

/-! ## C10 — document without a `properties` key -/

/-- **C10**: on a document with no `properties` key, `list` returns the
empty array and `create` first initializes `properties` to `[]`, while
`update` and `delete` hit the unguarded array access and end in the
generic 500 branch with no mutation. -/
theorem missingPropertiesKey (now : Nat) (pid : String) (doc body : Obj)
    (hno : getF doc "properties" = none)
    (hvalid : validateProperty body = none) :
    listImoveis doc = .jarr [] ∧
    createImovel now doc body
      = (.ok (.jobj (setF body "id" (.jstr (freshId now)))),
         setF (setF doc "properties" (.jarr [])) "properties"
           (.jarr [.jobj (setF body "id" (.jstr (freshId now)))])) ∧
    updateImovel pid doc body = (.serverError, doc) ∧
    deleteImovel pid doc = (.serverError, doc) := by
  refine ⟨?_, ?_, ?_, ?_⟩
  · simp [listImoveis, hno]
  · simp [createImovel, hvalid, hno, truthyOpt, getF_setF]
  · simp [updateImovel, hvalid, hno]
  · simp [deleteImovel, hno]

/-- Witness for `missingPropertiesKey` on the empty root object. -/
theorem missingPropertiesKey_witness :
    listImoveis ([] : Obj) = .jarr [] ∧
    createImovel 7 [] sampleBody
      = (.ok (.jobj (setF sampleBody "id" (.jstr (freshId 7)))),
         setF (setF [] "properties" (.jarr [])) "properties"
           (.jarr [.jobj (setF sampleBody "id" (.jstr (freshId 7)))])) ∧
    updateImovel "1" [] sampleBody = (.serverError, []) ∧
    deleteImovel "1" [] = (.serverError, []) :=
  missingPropertiesKey 7 "1" [] sampleBody rfl rfl

/-! ## C1 — create appends the stored record -/

/-- **C1**: `create` on a valid candidate stores the candidate plus the
fresh id, appends it to the end of the collection, persists, and returns
it; `list` on the new document shows it with all submitted fields, and the
fresh id is unseen among the prior records. -/
theorem createAppends (now : Nat) (doc body : Obj) (xs : List JVal)
    (hprops : getF doc "properties" = some (.jarr xs))
    (hvalid : validateProperty body = none)
    (hfresh : ∀ p ∈ xs, idEq p (freshId now) = false) :
    ∃ stored : Obj,
      stored = setF body "id" (.jstr (freshId now)) ∧
      createImovel now doc body
        = (.ok (.jobj stored),
           setF doc "properties" (.jarr (xs ++ [.jobj stored]))) ∧
      getF stored "id" = some (.jstr (freshId now)) ∧
      (∀ k, k ≠ "id" → getF stored k = getF body k) ∧
      listImoveis (setF doc "properties" (.jarr (xs ++ [.jobj stored])))
        = .jarr (xs ++ [.jobj stored]) ∧
      freshId now ∉ collIds xs := by
  refine ⟨setF body "id" (.jstr (freshId now)), rfl, ?_, ?_, ?_, ?_, ?_⟩
  · simp [createImovel, hvalid, hprops, truthyOpt, truthy]
  · rw [getF_setF]; simp
  · intro k hk
    rw [getF_setF, if_neg (fun h => hk h.symm)]
  · simp [listImoveis, getF_setF, truthy]
  · intro hmem
    obtain ⟨p, hp, hid⟩ := (mem_collIds _ _).mp hmem
    rw [hfresh p hp] at hid
    exact Bool.noConfusion hid

/-- Witness for `createAppends` on `oneRecDoc` and `sampleBody`. -/
theorem createAppends_witness :
    ∃ stored : Obj,
      stored = setF sampleBody "id" (.jstr (freshId 7)) ∧
      createImovel 7 oneRecDoc sampleBody
        = (.ok (.jobj stored),
           setF oneRecDoc "properties"
             (.jarr ([.jobj [("id", .jstr "1"), ("title", .jstr "T")]]
               ++ [.jobj stored]))) ∧
      getF stored "id" = some (.jstr (freshId 7)) ∧
      (∀ k, k ≠ "id" → getF stored k = getF sampleBody k) ∧
      listImoveis (setF oneRecDoc "properties"
          (.jarr ([.jobj [("id", .jstr "1"), ("title", .jstr "T")]]
            ++ [.jobj stored])))
        = .jarr ([.jobj [("id", .jstr "1"), ("title", .jstr "T")]]
            ++ [.jobj stored]) ∧
      freshId 7 ∉ collIds [.jobj [("id", .jstr "1"), ("title", .jstr "T")]] :=
  createAppends 7 oneRecDoc sampleBody
    [.jobj [("id", .jstr "1"), ("title", .jstr "T")]] rfl rfl (by decide)

/-! ## C2 — update is a shallow merge with the path id forced -/

/-- **C2**: `update(pid, body)` on the matched record performs a shallow
merge — absent fields keep their prior value, present fields are
overwritten — and the returned record's `id` is the path id even if the
payload carried a different `id`. -/
theorem updateMerges (pid : String) (doc body : Obj) (xs : List JVal)
    (i : Nat) (o : Obj)
    (hprops : getF doc "properties" = some (.jarr xs))
    (hvalid : validateProperty body = none)
    (hfind : xs.findIdx? (fun p => idEq p pid) = some i)
    (hel : xs[i]? = some (.jobj o)) :
    ∃ merged : Obj,
      merged = setF (spreadObj o body) "id" (.jstr pid) ∧
      updateImovel pid doc body
        = (.ok (.jobj merged),
           setF doc "properties" (.jarr (xs.set i (.jobj merged)))) ∧
      getF merged "id" = some (.jstr pid) ∧
      (∀ k, k ≠ "id" → getF body k = none → getF merged k = getF o k) ∧
      (∀ k v, k ≠ "id" → getF body k = some v → getF merged k = some v) := by
  refine ⟨_, rfl, ?_, ?_, ?_, ?_⟩
  · simp only [updateImovel, hvalid, hprops, hfind, hel]
  · rw [getF_setF]; simp
  · intro k hk hb
    rw [getF_setF, if_neg (fun h => hk h.symm), getF_spreadObj, hb]
    simp [Option.or]
  · intro k v hk hb
    rw [getF_setF, if_neg (fun h => hk h.symm), getF_spreadObj, hb]
    simp [Option.or]

/-- Witness for `updateMerges` on `oneRecDoc`, id `"1"`, `sampleBody`. -/
theorem updateMerges_witness :
    ∃ merged : Obj,
      merged = setF (spreadObj [("id", .jstr "1"), ("title", .jstr "T")]
          sampleBody) "id" (.jstr "1") ∧
      updateImovel "1" oneRecDoc sampleBody
        = (.ok (.jobj merged),
           setF oneRecDoc "properties"
             (.jarr ([.jobj [("id", .jstr "1"), ("title", .jstr "T")]].set 0
               (.jobj merged)))) ∧
      getF merged "id" = some (.jstr "1") ∧
      (∀ k, k ≠ "id" → getF sampleBody k = none →
        getF merged k = getF [("id", .jstr "1"), ("title", .jstr "T")] k) ∧
      (∀ k v, k ≠ "id" → getF sampleBody k = some v →
        getF merged k = some v) :=
  updateMerges "1" oneRecDoc sampleBody
    [.jobj [("id", .jstr "1"), ("title", .jstr "T")]] 0
    [("id", .jstr "1"), ("title", .jstr "T")] rfl rfl rfl rfl

/-! ## C3 — delete (corrected: exactly one only under distinct ids) -/

/-- With pairwise-distinct record ids, at most one record matches a given
id. -/
theorem countP_idEq_le_one (pid : String) (xs : List JVal)
    (hnodup : (collIds xs).Nodup) :
    xs.countP (fun p => idEq p pid) ≤ 1 := by
  induction xs with
  | nil => simp
  | cons p t ih =>
      rw [List.countP_cons]
      cases hrec : recId p with
      | some s =>
          have hcoll : collIds (p :: t) = s :: collIds t := by
            simp [collIds, List.filterMap_cons, hrec]
          rw [hcoll, List.nodup_cons] at hnodup
          by_cases hid : idEq p pid = true
          · have hs : s = pid := by
              have h2 := (recId_eq_some_iff p pid).mpr hid
              rw [hrec] at h2
              exact Option.some.inj h2
            have hzero : t.countP (fun q => idEq q pid) = 0 := by
              rw [List.countP_eq_zero]
              intro q hq hq'
              exact hnodup.1 (by
                rw [hs]
                exact (mem_collIds _ _).mpr ⟨q, hq, hq'⟩)
            simp [hzero, hid]
          · have hle := ih hnodup.2
            simp only [Bool.not_eq_true] at hid
            simp [hid]
            omega
      | none =>
          have hcoll : collIds (p :: t) = collIds t := by
            simp [collIds, List.filterMap_cons, hrec]
          rw [hcoll] at hnodup
          have hid : idEq p pid = false := by
            cases h : idEq p pid
            · rfl
            · exfalso
              have h2 := (recId_eq_some_iff p pid).mpr h
              rw [hrec] at h2
              exact Option.noConfusion h2
          have hle := ih hnodup
          simp [hid]
          omega

/-- Filtering out the matches drops exactly the match count. -/
theorem length_filter_not_add_countP (pf : JVal → Bool) (xs : List JVal) :
    (xs.filter (fun q => !pf q)).length + xs.countP pf = xs.length := by
  induction xs with
  | nil => simp
  | cons p t ih =>
      by_cases h : pf p <;>
        simp [List.filter_cons, List.countP_cons, h] <;> omega

/-- A document whose collection holds two records with the same id. -/
def dupIdDoc : Obj :=
  [("properties", .jarr [.jobj [("id", .jstr "1")], .jobj [("id", .jstr "1")]])]

/-- **C3, counterexample**: on a collection with two records of id `"1"`,
`delete("1")` removes both — the length drops from 2 to 0, not by exactly
one, refuting the claim for arbitrary Collections. -/
theorem deleteRemovesExactlyOne_counterexample :
    ∃ xs ys : List JVal,
      getF dupIdDoc "properties" = some (.jarr xs) ∧
      deleteImovel "1" dupIdDoc
        = (.ok (.jobj [("message", .jstr "Imóvel apagado com sucesso.")]),
           setF dupIdDoc "properties" (.jarr ys)) ∧
      xs.length = 2 ∧ ys.length = 0 :=
  ⟨_, _, rfl, rfl, rfl, rfl⟩

/-- **C3, amended**: `delete` on an unmatched id answers 404 with the
document unchanged; on a matched id, provided the record ids are pairwise
distinct (the Store invariant), it removes exactly one record and the
length shrinks by exactly one. -/
theorem deleteRemovesExactlyOne (pid : String) (doc : Obj) (xs : List JVal)
    (hprops : getF doc "properties" = some (.jarr xs))
    (hnodup : (collIds xs).Nodup) :
    ((∀ p ∈ xs, idEq p pid = false) →
        deleteImovel pid doc
          = (.notFound "Imóvel não encontrado para apagar.", doc)) ∧
    (∀ p ∈ xs, idEq p pid = true →
        ∃ ys, ys = xs.filter (fun q => !idEq q pid) ∧
          deleteImovel pid doc
            = (.ok (.jobj [("message", .jstr "Imóvel apagado com sucesso.")]),
               setF doc "properties" (.jarr ys)) ∧
          ys.length + 1 = xs.length) := by
  constructor
  · intro hnone
    have hys : xs.filter (fun q => !idEq q pid) = xs := by
      rw [List.filter_eq_self]
      intro a ha
      simp [hnone a ha]
    simp [deleteImovel, hprops, hys]
  · intro p hp hid
    have hcount1 : xs.countP (fun q => idEq q pid) = 1 := by
      have hle := countP_idEq_le_one pid xs hnodup
      have hpos : 0 < xs.countP (fun q => idEq q pid) :=
        List.countP_pos_iff.mpr ⟨p, hp, hid⟩
      omega
    have hlen := length_filter_not_add_countP (fun q => idEq q pid) xs
    rw [hcount1] at hlen
    refine ⟨_, rfl, ?_, hlen⟩
    have hne : ¬ (xs.filter (fun q => !idEq q pid)).length = xs.length := by
      omega
    simp only [deleteImovel, hprops]
    rw [if_neg hne]

/-- Witness for `deleteRemovesExactlyOne` on `oneRecDoc`. -/
theorem deleteRemovesExactlyOne_witness :
    ((∀ p ∈ [JVal.jobj [("id", .jstr "1"), ("title", .jstr "T")]],
        idEq p "9" = false) →
      deleteImovel "9" oneRecDoc
        = (.notFound "Imóvel não encontrado para apagar.", oneRecDoc)) ∧
    (∀ p ∈ [JVal.jobj [("id", .jstr "1"), ("title", .jstr "T")]],
      idEq p "9" = true →
        ∃ ys, ys = [JVal.jobj [("id", .jstr "1"), ("title", .jstr "T")]].filter
            (fun q => !idEq q "9") ∧
          deleteImovel "9" oneRecDoc
            = (.ok (.jobj [("message", .jstr "Imóvel apagado com sucesso.")]),
               setF oneRecDoc "properties" (.jarr ys)) ∧
          ys.length + 1
            = [JVal.jobj [("id", .jstr "1"), ("title", .jstr "T")]].length) :=
  deleteRemovesExactlyOne "9" oneRecDoc
    [.jobj [("id", .jstr "1"), ("title", .jstr "T")]] rfl (by decide)

/-! ## C8 — id uniqueness across the operations -/

theorem collIds_append (xs ys : List JVal) :
    collIds (xs ++ ys) = collIds xs ++ collIds ys := by
  simp [collIds, List.filterMap_append]

/-- The record built by `create` or `update` carries the id it was
assigned. -/
theorem recId_setF_id (o : Obj) (s : String) :
    recId (.jobj (setF o "id" (.jstr s))) = some s := by
  simp only [recId]
  rw [getF_setF]
  simp

/-- Replacing an element by one with the same id leaves the id list
unchanged. -/
theorem collIds_set (xs : List JVal) (i : Nat) (p q : JVal)
    (hi : xs[i]? = some p) (h : recId p = recId q) :
    collIds (xs.set i q) = collIds xs := by
  induction xs generalizing i with
  | nil => simp at hi
  | cons a t ih =>
      cases i with
      | zero =>
          simp only [List.getElem?_cons_zero] at hi
          obtain rfl := Option.some.inj hi
          simp [collIds, List.filterMap_cons, h]
      | succ j =>
          simp only [List.getElem?_cons_succ] at hi
          have ht := ih j hi
          simp only [collIds] at ht
          simp [List.set_cons_succ, collIds, List.filterMap_cons, ht]

/-- **C8**: id uniqueness as a maintained invariant: on a duplicate-free
collection, when every current id derives from an earlier timestamp the id
assigned by `create` is previously unseen and the persisted ids remain
duplicate-free; `update` and `delete` preserve duplicate-freedom
unconditionally; yet two creates sharing one timestamp (the claim's own
caveat) do produce a duplicate id. -/
theorem idUniquenessInvariant (now : Nat) (pid : String) (doc body : Obj)
    (xs : List JVal)
    (hprops : getF doc "properties" = some (.jarr xs))
    (hnodup : (collIds xs).Nodup) :
    ((∀ t, freshId t ∈ collIds xs → t < now) →
        freshId now ∉ collIds xs ∧
        (docIds (createImovel now doc body).2).Nodup) ∧
    (docIds (updateImovel pid doc body).2).Nodup ∧
    (docIds (deleteImovel pid doc).2).Nodup ∧
    ¬ (docIds (createImovel 5 (createImovel 5 [("properties", .jarr [])]
        sampleBody).2 sampleBody).2).Nodup := by
  refine ⟨?_, ?_, ?_, by decide⟩
  · intro hmono
    have hnotmem : freshId now ∉ collIds xs := fun hmem =>
      absurd (hmono now hmem) (lt_irrefl now)
    refine ⟨hnotmem, ?_⟩
    cases hv : validateProperty body with
    | some msg => simp [createImovel, hv, docIds, hprops, hnodup]
    | none =>
        have hcreate : (createImovel now doc body).2
            = setF doc "properties"
                (.jarr (xs ++ [.jobj (setF body "id" (.jstr (freshId now)))])) := by
          simp [createImovel, hv, hprops, truthyOpt, truthy]
        rw [hcreate]
        have hdoc : docIds (setF doc "properties"
            (.jarr (xs ++ [.jobj (setF body "id" (.jstr (freshId now)))])))
            = collIds (xs ++ [.jobj (setF body "id" (.jstr (freshId now)))]) := by
          simp [docIds, getF_setF]
        rw [hdoc, collIds_append]
        have hone : collIds [JVal.jobj (setF body "id" (.jstr (freshId now)))]
            = [freshId now] := by
          simp [collIds, List.filterMap_cons, recId_setF_id]
        rw [hone]
        simp [List.nodup_append, hnodup, hnotmem]
  · cases hv : validateProperty body with
    | some msg => simp [updateImovel, hv, docIds, hprops, hnodup]
    | none =>
        cases hidx : xs.findIdx? (fun p => idEq p pid) with
        | none => simp [updateImovel, hv, hprops, hidx, docIds, hnodup]
        | some i =>
            cases hel : xs[i]? with
            | none => simp [updateImovel, hv, hprops, hidx, hel, docIds, hnodup]
            | some p =>
                cases p
                case jobj o =>
                  have hpid : idEq (JVal.jobj o) pid = true := by
                    obtain ⟨hlt, hp, -⟩ := List.findIdx?_eq_some_iff_getElem.mp hidx
                    have hx : xs[i] = JVal.jobj o := by
                      rw [List.getElem?_eq_getElem hlt] at hel
                      exact Option.some.inj hel
                    exact hx ▸ hp
                  have hset : collIds (xs.set i
                      (JVal.jobj (setF (spreadObj o body) "id" (.jstr pid))))
                      = collIds xs :=
                    collIds_set xs i (JVal.jobj o) _ hel
                      (by rw [recId_setF_id, (recId_eq_some_iff _ _).mpr hpid])
                  have hupd : (updateImovel pid doc body).2
                      = setF doc "properties" (.jarr (xs.set i
                          (JVal.jobj (setF (spreadObj o body) "id" (.jstr pid))))) := by
                    simp [updateImovel, hv, hprops, hidx, hel]
                  rw [hupd]
                  simpa [docIds, getF_setF, hset] using hnodup
                all_goals simp [updateImovel, hv, hprops, hidx, hel, docIds, hnodup]
  · by_cases hlen : (xs.filter (fun q => !idEq q pid)).length = xs.length
    · simp [deleteImovel, hprops, hlen, docIds, hnodup]
    · have hdel : (deleteImovel pid doc).2
          = setF doc "properties" (.jarr (xs.filter (fun q => !idEq q pid))) := by
        simp [deleteImovel, hprops, hlen]
      rw [hdel]
      have hsub : List.Sublist (collIds (xs.filter (fun q => !idEq q pid)))
          (collIds xs) :=
        (List.filter_sublist _).filterMap recId
      simpa [docIds, getF_setF] using hnodup.sublist hsub

/-- Witness for `idUniquenessInvariant` on the empty collection. -/
theorem idUniquenessInvariant_witness :
    (freshId 7 ∉ collIds ([] : List JVal) ∧
      (docIds (createImovel 7 [("properties", .jarr [])] sampleBody).2).Nodup) ∧
    (docIds (updateImovel "1" [("properties", .jarr [])] sampleBody).2).Nodup ∧
    (docIds (deleteImovel "1" [("properties", .jarr [])]).2).Nodup ∧
    ¬ (docIds (createImovel 5 (createImovel 5 [("properties", .jarr [])]
        sampleBody).2 sampleBody).2).Nodup := by
  obtain ⟨h1, h2, h3, h4⟩ := idUniquenessInvariant 7 "1"
    [("properties", .jarr [])] sampleBody [] rfl (by decide)
  refine ⟨h1 ?_, h2, h3, h4⟩
  intro t ht
  simp [collIds] at ht

/-! ## C9 — persistence round-trip: `JSON.parse` / `JSON.stringify(·, null, 2)`

The file content is modelled as the character list of the JSON text.
`writeData` serializes exactly as `JSON.stringify(data, null, 2)` does
(2-space indentation, `": "` after keys, JSON string escaping with
lower-case `\u00xx` for control characters); `readData` parses as
`JSON.parse` does (whitespace = space/tab/LF/CR, all JSON escapes,
integer numerals — numbers are modelled as integers throughout).  Escapes
denoting surrogate halves are rejected (they have no scalar value); the
serializer never emits them. -/

/-- JSON whitespace accepted by `JSON.parse`. -/
def isWs (c : Char) : Bool :=
  c = ' ' || c = '\n' || c = '\t' || c = '\x0d'

/-- Lower-case hexadecimal digit, as `JSON.stringify` emits in `\u00xx`. -/
def hexCh (n : Nat) : Char :=
  if n < 10 then Char.ofNat (48 + n) else Char.ofNat (87 + n)

/-- `JSON.stringify` escaping of one character. -/
def escChar (c : Char) : List Char :=
  if c = '"' then ['\\', '"']
  else if c = '\\' then ['\\', '\\']
  else if c = '\x08' then ['\\', 'b']
  else if c = '\x0c' then ['\\', 'f']
  else if c = '\n' then ['\\', 'n']
  else if c = '\x0d' then ['\\', 'r']
  else if c = '\t' then ['\\', 't']
  else if c.toNat < 32 then
    ['\\', 'u', '0', '0', hexCh (c.toNat / 16), hexCh (c.toNat % 16)]
  else [c]

/-- Escape a character list. -/
def escList : List Char → List Char
  | [] => []
  | c :: cs => escChar c ++ escList cs

/-- A quoted, escaped JSON string literal. -/
def quoteStr (s : String) : List Char := '"' :: (escList s.data ++ ['"'])

/-- Decimal numeral of an integer. -/
def intDec (i : Int) : List Char :=
  if i < 0 then '-' :: natDec i.natAbs else natDec i.natAbs

/-- The 2-space indentation prefix at nesting depth `n`. -/
def indentChars (n : Nat) : List Char := List.replicate (2 * n) ' '

mutual

/-- `JSON.stringify(v, null, 2)` at nesting depth `ind`, as characters. -/
def serVal (ind : Nat) : JVal → List Char
  | .jnull => ['n', 'u', 'l', 'l']
  | .jbool true => ['t', 'r', 'u', 'e']
  | .jbool false => ['f', 'a', 'l', 's', 'e']
  | .jnum i => intDec i
  | .jstr s => quoteStr s
  | .jarr [] => ['[', ']']
  | .jarr (x :: xs) =>
      '[' :: '\n' :: (indentChars (ind + 1) ++ serVal (ind + 1) x
        ++ serElems (ind + 1) xs ++ '\n' :: (indentChars ind ++ [']']))
  | .jobj [] => ['\x7b', '\x7d']
  | .jobj (kv :: kvs) =>
      '\x7b' :: '\n' :: (indentChars (ind + 1) ++ quoteStr kv.1
        ++ ':' :: ' ' :: (serVal (ind + 1) kv.2 ++ serMembers (ind + 1) kvs
        ++ '\n' :: (indentChars ind ++ ['\x7d'])))

/-- The `",\n<indent><element>"` continuation of a non-empty array. -/
def serElems (ind : Nat) : List JVal → List Char
  | [] => []
  | x :: xs =>
      ',' :: '\n' :: (indentChars ind ++ serVal ind x ++ serElems ind xs)

/-- The `",\n<indent>\"key\": <value>"` continuation of a non-empty object. -/
def serMembers (ind : Nat) : List (String × JVal) → List Char
  | [] => []
  | kv :: kvs =>
      ',' :: '\n' :: (indentChars ind ++ quoteStr kv.1
        ++ ':' :: ' ' :: (serVal ind kv.2 ++ serMembers ind kvs))

end

/-- `writeData`: the exact file text `JSON.stringify(doc, null, 2)`. -/
def writeData (doc : JVal) : String := ⟨serVal 0 doc⟩

/-- Drop leading JSON whitespace. -/
def skipWs : List Char → List Char
  | [] => []
  | c :: cs => if isWs c then skipWs cs else c :: cs

def isDigitCh (c : Char) : Bool := 48 ≤ c.toNat && c.toNat ≤ 57

def digitVal (c : Char) : Nat := c.toNat - 48

/-- Value of a hexadecimal digit (either case), if any. -/
def hexVal (c : Char) : Option Nat :=
  if 48 ≤ c.toNat && c.toNat ≤ 57 then some (c.toNat - 48)
  else if 97 ≤ c.toNat && c.toNat ≤ 102 then some (c.toNat - 87)
  else if 65 ≤ c.toNat && c.toNat ≤ 70 then some (c.toNat - 55)
  else none

/-- Read a run of decimal digits onto an accumulator. -/
def parseDigits : List Char → Nat → Nat × List Char
  | [], acc => (acc, [])
  | c :: cs, acc =>
      if isDigitCh c then parseDigits cs (10 * acc + digitVal c)
      else (acc, c :: cs)

/-- Integer numeral (`JSON.parse` restricted to the integer grammar). -/
def parseNumber : List Char → Option (Int × List Char)
  | [] => none
  | c :: cs =>
      if c = '-' then
        match cs with
        | [] => none
        | c2 :: cs2 =>
            if isDigitCh c2 then
              let r := parseDigits cs2 (digitVal c2)
              some (-(r.1 : Int), r.2)
            else none
      else if isDigitCh c then
        let r := parseDigits cs (digitVal c)
        some ((r.1 : Int), r.2)
      else none

/-- JSON string body after the opening quote: handles all escapes,
rejects raw control characters and surrogate-half escapes. -/
def parseStrBody : List Char → List Char → Option (String × List Char)
  | [], _ => none
  | c :: cs, acc =>
      if c = '"' then some (⟨acc.reverse⟩, cs)
      else if c = '\\' then
        match cs with
        | [] => none
        | e :: cs2 =>
            if e = '"' then parseStrBody cs2 ('"' :: acc)
            else if e = '\\' then parseStrBody cs2 ('\\' :: acc)
            else if e = '/' then parseStrBody cs2 ('/' :: acc)
            else if e = 'b' then parseStrBody cs2 ('\x08' :: acc)
            else if e = 'f' then parseStrBody cs2 ('\x0c' :: acc)
            else if e = 'n' then parseStrBody cs2 ('\n' :: acc)
            else if e = 'r' then parseStrBody cs2 ('\x0d' :: acc)
            else if e = 't' then parseStrBody cs2 ('\t' :: acc)
            else if e = 'u' then
              match cs2 with
              | h1 :: h2 :: h3 :: h4 :: cs3 =>
                  match hexVal h1, hexVal h2, hexVal h3, hexVal h4 with
                  | some a, some b, some c1, some d =>
                      let n := ((a * 16 + b) * 16 + c1) * 16 + d
                      if n < 55296 then parseStrBody cs3 (Char.ofNat n :: acc)
                      else if 57343 < n ∧ n < 1114112 then
                        parseStrBody cs3 (Char.ofNat n :: acc)
                      else none
                  | _, _, _, _ => none
              | _ => none
            else none
      else if c.toNat < 32 then none
      else parseStrBody cs (c :: acc)

mutual

/-- One JSON value (fuel bounds the nesting). -/
def parseVal : Nat → List Char → Option (JVal × List Char)
  | 0, _ => none
  | fuel + 1, cs =>
      match skipWs cs with
      | 'n' :: 'u' :: 'l' :: 'l' :: rest => some (.jnull, rest)
      | 't' :: 'r' :: 'u' :: 'e' :: rest => some (.jbool true, rest)
      | 'f' :: 'a' :: 'l' :: 's' :: 'e' :: rest => some (.jbool false, rest)
      | '"' :: rest => (parseStrBody rest []).map (fun r => (.jstr r.1, r.2))
      | '[' :: rest =>
          match skipWs rest with
          | ']' :: rest2 => some (.jarr [], rest2)
          | _ =>
              match parseVal fuel rest with
              | some (v, rest2) => parseElems fuel [v] rest2
              | none => none
      | '\x7b' :: rest =>
          match skipWs rest with
          | '\x7d' :: rest2 => some (.jobj [], rest2)
          | _ =>
              match parseMember fuel rest with
              | some (kv, rest2) => parseMembers fuel [kv] rest2
              | none => none
      | other => (parseNumber other).map (fun r => (.jnum r.1, r.2))

/-- One `"key": value` object member. -/
def parseMember : Nat → List Char → Option ((String × JVal) × List Char)
  | 0, _ => none
  | fuel + 1, cs =>
      match skipWs cs with
      | '"' :: rest =>
          match parseStrBody rest [] with
          | some (k, rest2) =>
              match skipWs rest2 with
              | ':' :: rest3 =>
                  match parseVal fuel rest3 with
                  | some (v, rest4) => some ((k, v), rest4)
                  | none => none
              | _ => none
          | none => none
      | _ => none

/-- Remaining array elements after the first, then the closing bracket. -/
def parseElems : Nat → List JVal → List Char → Option (JVal × List Char)
  | 0, _, _ => none
  | fuel + 1, acc, cs =>
      match skipWs cs with
      | ',' :: rest =>
          match parseVal fuel rest with
          | some (v, rest2) => parseElems fuel (acc ++ [v]) rest2
          | none => none
      | ']' :: rest => some (.jarr acc, rest)
      | _ => none

/-- Remaining object members after the first, then the closing brace. -/
def parseMembers : Nat → List (String × JVal) → List Char
    → Option (JVal × List Char)
  | 0, _, _ => none
  | fuel + 1, acc, cs =>
      match skipWs cs with
      | ',' :: rest =>
          match parseMember fuel rest with
          | some (kv, rest2) => parseMembers fuel (acc ++ [kv]) rest2
          | none => none
      | '\x7d' :: rest => some (.jobj acc, rest)
      | _ => none

end

/-- `JSON.parse`: one value, then only trailing whitespace. -/
def parseJson (s : String) : Option JVal :=
  match parseVal (s.length + 1) s.data with
  | some (v, rest) => if skipWs rest = [] then some v else none
  | none => none

/-- `readData`: parse the persisted file content. -/
def readData (s : String) : Option JVal := parseJson s

/-! ### Whitespace and digit lemmas -/

theorem skipWs_append (ws z : List Char) (h : ∀ c ∈ ws, isWs c = true) :
    skipWs (ws ++ z) = skipWs z := by
  induction ws with
  | nil => simp
  | cons c cs ih =>
      have hc : isWs c = true := h c (List.mem_cons_self c cs)
      simp only [List.cons_append, skipWs, hc, if_pos]
      exact ih (fun d hd => h d (List.mem_cons_of_mem c hd))

theorem skipWs_indent (n : Nat) (z : List Char) :
    skipWs (indentChars n ++ z) = skipWs z := by
  apply skipWs_append
  intro c hc
  rw [List.eq_of_mem_replicate hc]
  decide

theorem skipWs_cons_of_not (c : Char) (z : List Char) (h : isWs c = false) :
    skipWs (c :: z) = c :: z := by
  simp [skipWs, h]

theorem isDigitCh_not_ws (c : Char) (h : isDigitCh c = true) :
    isWs c = false := by
  by_cases h1 : c = ' '
  · rw [h1] at h; exact absurd h (by decide)
  by_cases h2 : c = '\n'
  · rw [h2] at h; exact absurd h (by decide)
  by_cases h3 : c = '\t'
  · rw [h3] at h; exact absurd h (by decide)
  by_cases h4 : c = '\x0d'
  · rw [h4] at h; exact absurd h (by decide)
  simp [isWs, h1, h2, h3, h4]

theorem digit_toNat (m : Nat) (hm : m < 10) :
    (Char.ofNat (48 + m)).toNat = 48 + m := by
  interval_cases m <;> decide

theorem isDigitCh_digit (m : Nat) (hm : m < 10) :
    isDigitCh (Char.ofNat (48 + m)) = true := by
  interval_cases m <;> decide

theorem digitVal_digit (m : Nat) (hm : m < 10) :
    digitVal (Char.ofNat (48 + m)) = m := by
  interval_cases m <;> decide

theorem hexVal_hexCh (m : Nat) (hm : m < 16) :
    hexVal (hexCh m) = some m := by
  interval_cases m <;> decide

/-- Decimal value of a digit run, onto an accumulator. -/
def digitsVal : List Char → Nat → Nat
  | [], acc => acc
  | c :: cs, acc => digitsVal cs (10 * acc + digitVal c)

theorem digitsVal_append (l1 l2 : List Char) (acc : Nat) :
    digitsVal (l1 ++ l2) acc = digitsVal l2 (digitsVal l1 acc) := by
  induction l1 generalizing acc with
  | nil => simp [digitsVal]
  | cons c cs ih => simp [digitsVal, ih]

theorem natDecAux_spec (fuel : Nat) : ∀ n, n < fuel →
    natDecAux fuel n ≠ [] ∧
    (∀ c ∈ natDecAux fuel n, isDigitCh c = true) ∧
    (∀ acc, digitsVal (natDecAux fuel n) acc
      = acc * 10 ^ (natDecAux fuel n).length + n) := by
  induction fuel with
  | zero => intro n hn; omega
  | succ f ih =>
      intro n hn
      by_cases h10 : n < 10
      · refine ⟨by simp [natDecAux, h10], ?_, ?_⟩
        · intro c hc
          simp only [natDecAux, if_pos h10, List.mem_singleton] at hc
          rw [hc]
          exact isDigitCh_digit n h10
        · intro acc
          simp [natDecAux, h10, digitsVal, digitVal_digit n h10]
          ring
      · have hrec : n / 10 < f := by omega
        obtain ⟨hne, hdig, hval⟩ := ih (n / 10) hrec
        refine ⟨by simp [natDecAux, h10], ?_, ?_⟩
        · intro c hc
          simp only [natDecAux, if_neg h10, List.mem_append,
            List.mem_singleton] at hc
          rcases hc with hc | hc
          · exact hdig c hc
          · rw [hc]
            exact isDigitCh_digit (n % 10) (Nat.mod_lt n (by omega))
        · intro acc
          rw [natDecAux, if_neg h10]
          rw [digitsVal_append, hval acc]
          simp only [digitsVal, digitVal_digit (n % 10) (Nat.mod_lt n (by omega)),
            List.length_append, List.length_singleton]
          rw [pow_succ]
          have hdm := Nat.div_add_mod n 10
          ring_nf
          omega

theorem natDec_ne_nil (n : Nat) : natDec n ≠ [] :=
  (natDecAux_spec (n + 1) n (by omega)).1

theorem natDec_digits (n : Nat) : ∀ c ∈ natDec n, isDigitCh c = true :=
  (natDecAux_spec (n + 1) n (by omega)).2.1

theorem natDec_val (n : Nat) : digitsVal (natDec n) 0 = n := by
  have h := (natDecAux_spec (n + 1) n (by omega)).2.2 0
  simpa using h

/-- Heads of the remaining input that cannot extend a numeral. -/
def noDigitHead : List Char → Prop
  | [] => True
  | c :: _ => isDigitCh c = false

theorem parseDigits_append (ds : List Char) (rest : List Char) (acc : Nat)
    (hds : ∀ c ∈ ds, isDigitCh c = true) (hrest : noDigitHead rest) :
    parseDigits (ds ++ rest) acc = (digitsVal ds acc, rest) := by
  induction ds generalizing acc with
  | nil =>
      cases rest with
      | nil => simp [parseDigits, digitsVal]
      | cons c cs =>
          simp only [noDigitHead] at hrest
          simp [parseDigits, hrest, digitsVal]
  | cons c cs ih =>
      have hc : isDigitCh c = true := hds c (List.mem_cons_self c cs)
      simp only [List.cons_append, parseDigits, hc, if_pos, digitsVal]
      exact ih (10 * acc + digitVal c)
        (fun d hd => hds d (List.mem_cons_of_mem c hd))

theorem parseNumber_intDec (i : Int) (rest : List Char)
    (hrest : noDigitHead rest) :
    parseNumber (intDec i ++ rest) = some (i, rest) := by
  obtain ⟨d, ds, hd⟩ := List.exists_cons_of_ne_nil (natDec_ne_nil i.natAbs)
  have hdd : isDigitCh d = true := by
    apply natDec_digits
    rw [hd]
    exact List.mem_cons_self d ds
  have hdtl : ∀ c ∈ ds, isDigitCh c = true := fun c hc =>
    natDec_digits i.natAbs c (by rw [hd]; exact List.mem_cons_of_mem d hc)
  have hval : digitsVal ds (digitVal d) = i.natAbs := by
    have h0 := natDec_val i.natAbs
    rw [hd] at h0
    simpa [digitsVal] using h0
  by_cases hneg : i < 0
  · have hshape : intDec i ++ rest = '-' :: d :: (ds ++ rest) := by
      rw [intDec, if_pos hneg, hd]
      simp
    rw [hshape]
    simp only [parseNumber, hdd, if_true, if_pos]
    rw [parseDigits_append ds rest (digitVal d) hdtl hrest]
    simp only [hval]
    have hi : -(i.natAbs : Int) = i := by omega
    rw [hi]
  · have hdm : ¬ d = '-' := by
      intro hcon
      rw [hcon] at hdd
      exact absurd hdd (by decide)
    have hshape : intDec i ++ rest = d :: (ds ++ rest) := by
      rw [intDec, if_neg hneg, hd]
      simp
    rw [hshape]
    simp only [parseNumber, hdm, hdd, if_false, if_pos]
    rw [parseDigits_append ds rest (digitVal d) hdtl hrest]
    simp only [hval]
    have hi : (i.natAbs : Int) = i := by omega
    rw [hi]

/-! ### String escaping round-trip -/

theorem escChar_parse (c : Char) (acc tail : List Char) :
    parseStrBody (escChar c ++ tail) acc = parseStrBody tail (c :: acc) := by
  by_cases h1 : c = '"'
  · subst h1
    rw [show escChar '"' ++ tail = '\\' :: '"' :: tail from by simp [escChar]]
    rw [parseStrBody.eq_def]
    simp
  by_cases h2 : c = '\\'
  · subst h2
    rw [show escChar '\\' ++ tail = '\\' :: '\\' :: tail from by simp [escChar]]
    rw [parseStrBody.eq_def]
    simp
  by_cases h3 : c = '\x08'
  · subst h3
    rw [show escChar '\x08' ++ tail = '\\' :: 'b' :: tail from by simp [escChar]]
    rw [parseStrBody.eq_def]
    simp
  by_cases h4 : c = '\x0c'
  · subst h4
    rw [show escChar '\x0c' ++ tail = '\\' :: 'f' :: tail from by simp [escChar]]
    rw [parseStrBody.eq_def]
    simp
  by_cases h5 : c = '\n'
  · subst h5
    rw [show escChar '\n' ++ tail = '\\' :: 'n' :: tail from by simp [escChar]]
    rw [parseStrBody.eq_def]
    simp
  by_cases h6 : c = '\x0d'
  · subst h6
    rw [show escChar '\x0d' ++ tail = '\\' :: 'r' :: tail from by simp [escChar]]
    rw [parseStrBody.eq_def]
    simp
  by_cases h7 : c = '\t'
  · subst h7
    rw [show escChar '\t' ++ tail = '\\' :: 't' :: tail from by simp [escChar]]
    rw [parseStrBody.eq_def]
    simp
  by_cases h8 : c.toNat < 32
  · have hhi : hexVal (hexCh (c.toNat / 16)) = some (c.toNat / 16) :=
      hexVal_hexCh _ (by omega)
    have hlo : hexVal (hexCh (c.toNat % 16)) = some (c.toNat % 16) :=
      hexVal_hexCh _ (Nat.mod_lt _ (by omega))
    have hesc : escChar c ++ tail
        = '\\' :: 'u' :: '0' :: '0' :: hexCh (c.toNat / 16)
            :: hexCh (c.toNat % 16) :: tail := by
      simp [escChar, h1, h2, h3, h4, h5, h6, h7, h8]
    rw [hesc, parseStrBody.eq_def]
    have h0 : hexVal '0' = some 0 := by decide
    have hn : c.toNat / 16 * 16 + c.toNat % 16 = c.toNat := by omega
    have hlt : c.toNat < 55296 := by omega
    simp [h0, hhi, hlo, hn, hlt, Char.ofNat_toNat]
  · have hesc : escChar c ++ tail = c :: tail := by
      simp [escChar, h1, h2, h3, h4, h5, h6, h7, h8]
    rw [hesc, parseStrBody.eq_def]
    simp [h1, h2, h8]

theorem escList_parse (cs : List Char) (acc rest : List Char) :
    parseStrBody (escList cs ++ '"' :: rest) acc
      = some (⟨acc.reverse ++ cs⟩, rest) := by
  induction cs generalizing acc with
  | nil =>
      simp only [escList, List.nil_append]
      rw [parseStrBody.eq_def]
      simp
  | cons c cs ih =>
      rw [escList, List.append_assoc, escChar_parse, ih (c :: acc)]
      simp

theorem quoteStr_parse (s : String) (z : List Char) :
    parseStrBody (escList s.data ++ '"' :: z) [] = some (s, z) := by
  rw [escList_parse]
  rcases s with ⟨l⟩
  simp

/-! ### Serialized-form structure lemmas -/

mutual

/-- Node count of a value (fuel bound for the parser). -/
def jsize : JVal → Nat
  | .jnull => 1
  | .jbool _ => 1
  | .jnum _ => 1
  | .jstr _ => 1
  | .jarr xs => lsize xs + 1
  | .jobj kvs => msize kvs + 1

def lsize : List JVal → Nat
  | [] => 0
  | x :: xs => jsize x + lsize xs + 1

def msize : List (String × JVal) → Nat
  | [] => 0
  | kv :: kvs => jsize kv.2 + msize kvs + 1

end

theorem jsize_pos (v : JVal) : 1 ≤ jsize v := by
  cases v <;> simp [jsize]

/-- The first character of a serialized value: never whitespace, never a
closing bracket or brace. -/
theorem serVal_head (ind : Nat) (v : JVal) :
    ∃ c t, serVal ind v = c :: t ∧ isWs c = false
      ∧ ¬ c = ']' ∧ ¬ c = '\x7d' := by
  cases v with
  | jnull =>
      refine ⟨'n', _, rfl, ?_, ?_, ?_⟩ <;> decide
  | jbool b =>
      cases b
      case true => refine ⟨'t', _, rfl, ?_, ?_, ?_⟩ <;> decide
      case false => refine ⟨'f', _, rfl, ?_, ?_, ?_⟩ <;> decide
  | jnum i =>
      by_cases hneg : i < 0
      · refine ⟨'-', natDec i.natAbs, by simp [serVal, intDec, hneg], ?_, ?_, ?_⟩
          <;> decide
      · obtain ⟨d, ds, hd⟩ := List.exists_cons_of_ne_nil (natDec_ne_nil i.natAbs)
        have hdd : isDigitCh d = true := by
          apply natDec_digits
          rw [hd]
          exact List.mem_cons_self d ds
        refine ⟨d, ds, ?_, isDigitCh_not_ws d hdd, ?_, ?_⟩
        · simp [serVal, intDec, hneg, hd]
        · intro hcon; rw [hcon] at hdd; exact absurd hdd (by decide)
        · intro hcon; rw [hcon] at hdd; exact absurd hdd (by decide)
  | jstr s =>
      refine ⟨'"', _, rfl, ?_, ?_, ?_⟩ <;> decide
  | jarr xs =>
      cases xs
      case nil => refine ⟨'[', _, rfl, ?_, ?_, ?_⟩ <;> decide
      case cons x xs => refine ⟨'[', _, rfl, ?_, ?_, ?_⟩ <;> decide
  | jobj kvs =>
      cases kvs
      case nil => refine ⟨'\x7b', _, rfl, ?_, ?_, ?_⟩ <;> decide
      case cons kv kvs => refine ⟨'\x7b', _, rfl, ?_, ?_, ?_⟩ <;> decide

theorem skipWs_serVal (ind : Nat) (v : JVal) (z : List Char) :
    skipWs (serVal ind v ++ z) = serVal ind v ++ z := by
  obtain ⟨c, t, hc, hws, -, -⟩ := serVal_head ind v
  rw [hc, List.cons_append]
  exact skipWs_cons_of_not c (t ++ z) hws

theorem serVal_append_ne_bracket (ind : Nat) (v : JVal) (z w : List Char)
    (h : serVal ind v ++ z = ']' :: w) : False := by
  obtain ⟨c, t, hc, -, hbr, -⟩ := serVal_head ind v
  rw [hc, List.cons_append] at h
  exact hbr (List.head_eq_of_cons_eq h)

theorem serVal_append_ne_brace (ind : Nat) (v : JVal) (z w : List Char)
    (h : serVal ind v ++ z = '\x7d' :: w) : False := by
  obtain ⟨c, t, hc, -, -, hbr⟩ := serVal_head ind v
  rw [hc, List.cons_append] at h
  exact hbr (List.head_eq_of_cons_eq h)

theorem serElems_noDigitHead (ind : Nat) (xs : List JVal) (z : List Char) :
    noDigitHead (serElems ind xs ++ '\n' :: z) := by
  cases xs with
  | nil =>
      simp only [serElems, List.nil_append, noDigitHead]
      decide
  | cons x xs =>
      simp only [serElems, List.cons_append, noDigitHead]
      decide

theorem serMembers_noDigitHead (ind : Nat) (kvs : List (String × JVal))
    (z : List Char) :
    noDigitHead (serMembers ind kvs ++ '\n' :: z) := by
  cases kvs with
  | nil =>
      simp only [serMembers, List.nil_append, noDigitHead]
      decide
  | cons kv kvs =>
      simp only [serMembers, List.cons_append, noDigitHead]
      decide

theorem parseVal_ws (fuel : Nat) (ws z : List Char)
    (h : ∀ c ∈ ws, isWs c = true) :
    parseVal fuel (ws ++ z) = parseVal fuel z := by
  cases fuel with
  | zero =>
      rw [parseVal.eq_def]
      conv =>
        rhs
        rw [parseVal.eq_def]
  | succ f =>
      rw [parseVal.eq_def]
      conv =>
        rhs
        rw [parseVal.eq_def]
      dsimp only
      rw [skipWs_append ws z h]

theorem parseMember_ws (fuel : Nat) (ws z : List Char)
    (h : ∀ c ∈ ws, isWs c = true) :
    parseMember fuel (ws ++ z) = parseMember fuel z := by
  cases fuel with
  | zero =>
      rw [parseMember.eq_def]
      conv =>
        rhs
        rw [parseMember.eq_def]
  | succ f =>
      rw [parseMember.eq_def]
      conv =>
        rhs
        rw [parseMember.eq_def]
      dsimp only
      rw [skipWs_append ws z h]

/-- Whitespace-only lists for the absorption lemmas. -/
theorem ws_nl_indent (n : Nat) : ∀ c ∈ '\n' :: indentChars n, isWs c = true := by
  intro c hc
  rcases List.mem_cons.mp hc with hc | hc
  · rw [hc]; decide
  · rw [List.eq_of_mem_replicate hc]; decide

theorem ws_space : ∀ c ∈ [' '], isWs c = true := by
  intro c hc
  rw [List.mem_singleton.mp hc]
  decide

/-- The array branch of `parseVal`, named for the proofs. -/
def parseArrBody (fuel : Nat) (rest : List Char) : Option (JVal × List Char) :=
  match skipWs rest with
  | ']' :: rest2 => some (.jarr [], rest2)
  | _ =>
      match parseVal fuel rest with
      | some (v, rest2) => parseElems fuel [v] rest2
      | none => none

/-- The object branch of `parseVal`, named for the proofs. -/
def parseObjBody (fuel : Nat) (rest : List Char) : Option (JVal × List Char) :=
  match skipWs rest with
  | '\x7d' :: rest2 => some (.jobj [], rest2)
  | _ =>
      match parseMember fuel rest with
      | some (kv, rest2) => parseMembers fuel [kv] rest2
      | none => none

theorem parseVal_lbracket (f : Nat) (big : List Char) :
    parseVal (f + 1) ('[' :: big) = parseArrBody f big := by
  rw [parseVal.eq_def]
  dsimp only
  rw [skipWs_cons_of_not _ _ (by decide)]
  rfl

theorem parseVal_lbrace (f : Nat) (big : List Char) :
    parseVal (f + 1) ('\x7b' :: big) = parseObjBody f big := by
  rw [parseVal.eq_def]
  dsimp only
  rw [skipWs_cons_of_not _ _ (by decide)]
  rfl

theorem intDec_shape (i : Int) :
    ∃ c t, intDec i = c :: t ∧ (isDigitCh c = true ∨ c = '-') := by
  by_cases hneg : i < 0
  · exact ⟨'-', natDec i.natAbs, by simp [intDec, hneg], Or.inr rfl⟩
  · obtain ⟨d, ds, hd⟩ := List.exists_cons_of_ne_nil (natDec_ne_nil i.natAbs)
    have hdd : isDigitCh d = true := by
      apply natDec_digits
      rw [hd]
      exact List.mem_cons_self d ds
    exact ⟨d, ds, by simp [intDec, hneg, hd], Or.inl hdd⟩

theorem quoteStr_append_ne_brace (k : String) (z w : List Char)
    (h : quoteStr k ++ z = '\x7d' :: w) : False := by
  simp only [quoteStr, List.cons_append] at h
  have := List.head_eq_of_cons_eq h
  exact absurd this (by decide)

/-- The parser inverts the serializer: on any value's `JSON.stringify`
output followed by a non-digit remainder, `parseVal` returns exactly that
value; likewise for members, element lists and member lists. -/
theorem parse_ser (fuel : Nat) :
    (∀ v ind rest, jsize v ≤ fuel → noDigitHead rest →
        parseVal fuel (serVal ind v ++ rest) = some (v, rest)) ∧
    (∀ k v ind rest, jsize v < fuel → noDigitHead rest →
        parseMember fuel (quoteStr k ++ ':' :: ' ' :: (serVal ind v ++ rest))
          = some ((k, v), rest)) ∧
    (∀ xs acc ind jnd rest, lsize xs < fuel → noDigitHead rest →
        parseElems fuel acc
            (serElems ind xs ++ '\n' :: (indentChars jnd ++ ']' :: rest))
          = some (.jarr (acc ++ xs), rest)) ∧
    (∀ kvs acc ind jnd rest, msize kvs < fuel → noDigitHead rest →
        parseMembers fuel acc
            (serMembers ind kvs ++ '\n' :: (indentChars jnd ++ '\x7d' :: rest))
          = some (.jobj (acc ++ kvs), rest)) := by
  induction fuel with
  | zero =>
      refine ⟨?_, ?_, ?_, ?_⟩
      · intro v ind rest hsz hnd
        have := jsize_pos v
        omega
      · intro k v ind rest hsz hnd
        omega
      · intro xs acc ind jnd rest hsz hnd
        omega
      · intro kvs acc ind jnd rest hsz hnd
        omega
  | succ f ih =>
      obtain ⟨ihv, ihm, ihe, ihms⟩ := ih
      refine ⟨?_, ?_, ?_, ?_⟩
      · -- values
        intro v ind rest hsz hnd
        cases v with
        | jnull =>
            rw [show serVal ind .jnull ++ rest = 'n' :: 'u' :: 'l' :: 'l' :: rest
              from by simp [serVal]]
            rw [parseVal.eq_def]
            dsimp only
            rw [skipWs_cons_of_not _ _ (by decide)]
            rfl
        | jbool b =>
            cases b with
            | false =>
                rw [show serVal ind (.jbool false) ++ rest
                    = 'f' :: 'a' :: 'l' :: 's' :: 'e' :: rest from by simp [serVal]]
                rw [parseVal.eq_def]
                dsimp only
                rw [skipWs_cons_of_not _ _ (by decide)]
                rfl
            | true =>
                rw [show serVal ind (.jbool true) ++ rest
                    = 't' :: 'r' :: 'u' :: 'e' :: rest from by simp [serVal]]
                rw [parseVal.eq_def]
                dsimp only
                rw [skipWs_cons_of_not _ _ (by decide)]
                rfl
        | jnum i =>
            have hskip : skipWs (serVal ind (.jnum i) ++ rest)
                = serVal ind (.jnum i) ++ rest := skipWs_serVal ind (.jnum i) rest
            obtain ⟨c0, t0, hc0, hd0⟩ := intDec_shape i
            have hser : serVal ind (.jnum i) = intDec i := by simp [serVal]
            have hshape : serVal ind (.jnum i) ++ rest = c0 :: (t0 ++ rest) := by
              rw [hser, hc0]
              rfl
            rw [parseVal.eq_def]
            dsimp only
            rw [hskip, hshape]
            split
            all_goals try (rename_i heq
                           exfalso
                           injection heq with h1 h2
                           rcases hd0 with hd | hd
                           · rw [h1] at hd; exact absurd hd (by decide)
                           · exact absurd (h1 ▸ hd) (by decide))
            rename_i other hother
            rw [← hshape, hser, parseNumber_intDec i rest hnd]
            rfl
        | jstr s =>
            rw [show serVal ind (.jstr s) ++ rest
                = '"' :: (escList s.data ++ '"' :: rest) from by
              simp [serVal, quoteStr]]
            rw [parseVal.eq_def]
            dsimp only
            rw [skipWs_cons_of_not _ _ (by decide)]
            simp [quoteStr_parse]
        | jarr xs =>
            cases xs with
            | nil =>
                rw [show serVal ind (.jarr []) ++ rest = '[' :: ']' :: rest
                  from by simp [serVal]]
                rw [parseVal_lbracket]
                unfold parseArrBody
                rw [skipWs_cons_of_not _ _ (by decide)]
                rfl
            | cons x xs =>
                rw [show serVal ind (.jarr (x :: xs)) ++ rest
                    = '[' :: ('\n' :: (indentChars (ind + 1)
                        ++ (serVal (ind + 1) x
                          ++ (serElems (ind + 1) xs
                            ++ '\n' :: (indentChars ind ++ ']' :: rest)))))
                  from by simp [serVal]]
                rw [parseVal_lbracket]
                unfold parseArrBody
                have hsb : skipWs ('\n' :: (indentChars (ind + 1)
                    ++ (serVal (ind + 1) x
                      ++ (serElems (ind + 1) xs
                        ++ '\n' :: (indentChars ind ++ ']' :: rest)))))
                    = serVal (ind + 1) x
                      ++ (serElems (ind + 1) xs
                        ++ '\n' :: (indentChars ind ++ ']' :: rest)) := by
                  rw [show '\n' :: (indentChars (ind + 1)
                      ++ (serVal (ind + 1) x
                        ++ (serElems (ind + 1) xs
                          ++ '\n' :: (indentChars ind ++ ']' :: rest))))
                      = ('\n' :: indentChars (ind + 1))
                        ++ (serVal (ind + 1) x
                          ++ (serElems (ind + 1) xs
                            ++ '\n' :: (indentChars ind ++ ']' :: rest))) from rfl]
                  rw [skipWs_append _ _ (ws_nl_indent (ind + 1)), skipWs_serVal]
                rw [hsb]
                have hpv : parseVal f ('\n' :: (indentChars (ind + 1)
                    ++ (serVal (ind + 1) x
                      ++ (serElems (ind + 1) xs
                        ++ '\n' :: (indentChars ind ++ ']' :: rest)))))
                    = some (x, serElems (ind + 1) xs
                        ++ '\n' :: (indentChars ind ++ ']' :: rest)) := by
                  rw [show '\n' :: (indentChars (ind + 1)
                      ++ (serVal (ind + 1) x
                        ++ (serElems (ind + 1) xs
                          ++ '\n' :: (indentChars ind ++ ']' :: rest))))
                      = ('\n' :: indentChars (ind + 1))
                        ++ (serVal (ind + 1) x
                          ++ (serElems (ind + 1) xs
                            ++ '\n' :: (indentChars ind ++ ']' :: rest))) from rfl]
                  rw [parseVal_ws f _ _ (ws_nl_indent (ind + 1))]
                  apply ihv x (ind + 1) _ ?_ (serElems_noDigitHead _ _ _)
                  simp only [jsize, lsize] at hsz
                  omega
                split
                · rename_i rest2 heq
                  exact (serVal_append_ne_bracket _ _ _ _ heq).elim
                · rw [hpv]
                  have he := ihe xs [x] (ind + 1) ind rest
                    (by simp only [jsize, lsize] at hsz; omega) hnd
                  simpa using he
        | jobj kvs =>
            cases kvs with
            | nil =>
                rw [show serVal ind (.jobj []) ++ rest = '\x7b' :: '\x7d' :: rest
                  from by simp [serVal]]
                rw [parseVal_lbrace]
                unfold parseObjBody
                rw [skipWs_cons_of_not _ _ (by decide)]
                rfl
            | cons kv kvs =>
                obtain ⟨k1, v1⟩ := kv
                rw [show serVal ind (.jobj ((k1, v1) :: kvs)) ++ rest
                    = '\x7b' :: ('\n' :: (indentChars (ind + 1)
                        ++ (quoteStr k1 ++ ':' :: ' ' :: (serVal (ind + 1) v1
                          ++ (serMembers (ind + 1) kvs
                            ++ '\n' :: (indentChars ind ++ '\x7d' :: rest))))))
                  from by simp [serVal]]
                rw [parseVal_lbrace]
                unfold parseObjBody
                have hsb : skipWs ('\n' :: (indentChars (ind + 1)
                    ++ (quoteStr k1 ++ ':' :: ' ' :: (serVal (ind + 1) v1
                      ++ (serMembers (ind + 1) kvs
                        ++ '\n' :: (indentChars ind ++ '\x7d' :: rest))))))
                    = quoteStr k1 ++ ':' :: ' ' :: (serVal (ind + 1) v1
                      ++ (serMembers (ind + 1) kvs
                        ++ '\n' :: (indentChars ind ++ '\x7d' :: rest))) := by
                  rw [show '\n' :: (indentChars (ind + 1)
                      ++ (quoteStr k1 ++ ':' :: ' ' :: (serVal (ind + 1) v1
                        ++ (serMembers (ind + 1) kvs
                          ++ '\n' :: (indentChars ind ++ '\x7d' :: rest)))))
                      = ('\n' :: indentChars (ind + 1))
                        ++ (quoteStr k1 ++ ':' :: ' ' :: (serVal (ind + 1) v1
                          ++ (serMembers (ind + 1) kvs
                            ++ '\n' :: (indentChars ind ++ '\x7d' :: rest)))) from rfl]
                  rw [skipWs_append _ _ (ws_nl_indent (ind + 1))]
                  simp only [quoteStr, List.cons_append]
                  exact skipWs_cons_of_not _ _ (by decide)
                rw [hsb]
                have hpm : parseMember f ('\n' :: (indentChars (ind + 1)
                    ++ (quoteStr k1 ++ ':' :: ' ' :: (serVal (ind + 1) v1
                      ++ (serMembers (ind + 1) kvs
                        ++ '\n' :: (indentChars ind ++ '\x7d' :: rest))))))
                    = some ((k1, v1), serMembers (ind + 1) kvs
                        ++ '\n' :: (indentChars ind ++ '\x7d' :: rest)) := by
                  rw [show '\n' :: (indentChars (ind + 1)
                      ++ (quoteStr k1 ++ ':' :: ' ' :: (serVal (ind + 1) v1
                        ++ (serMembers (ind + 1) kvs
                          ++ '\n' :: (indentChars ind ++ '\x7d' :: rest)))))
                      = ('\n' :: indentChars (ind + 1))
                        ++ (quoteStr k1 ++ ':' :: ' ' :: (serVal (ind + 1) v1
                          ++ (serMembers (ind + 1) kvs
                            ++ '\n' :: (indentChars ind ++ '\x7d' :: rest)))) from rfl]
                  rw [parseMember_ws f _ _ (ws_nl_indent (ind + 1))]
                  apply ihm k1 v1 (ind + 1) _ ?_ (serMembers_noDigitHead _ _ _)
                  simp only [jsize, msize] at hsz
                  omega
                split
                · rename_i rest2 heq
                  exact (quoteStr_append_ne_brace _ _ _ heq).elim
                · rw [hpm]
                  have hms := ihms kvs [(k1, v1)] (ind + 1) ind rest
                    (by simp only [jsize, msize] at hsz; omega) hnd
                  simpa using hms
      · -- members
        intro k v ind rest hsz hnd
        rw [show quoteStr k ++ ':' :: ' ' :: (serVal ind v ++ rest)
            = '"' :: (escList k.data ++ '"' :: ':' :: ' ' :: (serVal ind v ++ rest))
          from by simp [quoteStr]]
        rw [parseMember.eq_def]
        dsimp only
        rw [skipWs_cons_of_not _ _ (by decide)]
        have h1 : parseStrBody
            (escList k.data ++ '"' :: (':' :: ' ' :: (serVal ind v ++ rest))) []
            = some (k, ':' :: ' ' :: (serVal ind v ++ rest)) :=
          quoteStr_parse k _
        have h2 : skipWs (':' :: ' ' :: (serVal ind v ++ rest))
            = ':' :: ' ' :: (serVal ind v ++ rest) :=
          skipWs_cons_of_not _ _ (by decide)
        have h3 : parseVal f (' ' :: (serVal ind v ++ rest)) = some (v, rest) := by
          rw [show ' ' :: (serVal ind v ++ rest) = [' '] ++ (serVal ind v ++ rest)
            from rfl]
          rw [parseVal_ws f _ _ ws_space]
          exact ihv v ind rest (by omega) hnd
        simp [h1, h2, h3]
      · -- element lists
        intro xs acc ind jnd rest hsz hnd
        cases xs with
        | nil =>
            rw [show serElems ind [] ++ '\n' :: (indentChars jnd ++ ']' :: rest)
                = ('\n' :: indentChars jnd) ++ (']' :: rest) from by simp [serElems]]
            rw [parseElems.eq_def]
            dsimp only
            rw [skipWs_append _ _ (ws_nl_indent jnd),
              skipWs_cons_of_not _ _ (by decide)]
            simp
        | cons x xs =>
            rw [show serElems ind (x :: xs) ++ '\n' :: (indentChars jnd ++ ']' :: rest)
                = ',' :: ('\n' :: (indentChars ind ++ (serVal ind x
                    ++ (serElems ind xs
                      ++ '\n' :: (indentChars jnd ++ ']' :: rest)))))
              from by simp [serElems]]
            rw [parseElems.eq_def]
            dsimp only
            rw [skipWs_cons_of_not _ _ (by decide)]
            have hpv : parseVal f ('\n' :: (indentChars ind ++ (serVal ind x
                ++ (serElems ind xs ++ '\n' :: (indentChars jnd ++ ']' :: rest)))))
                = some (x, serElems ind xs
                    ++ '\n' :: (indentChars jnd ++ ']' :: rest)) := by
              rw [show '\n' :: (indentChars ind ++ (serVal ind x
                  ++ (serElems ind xs ++ '\n' :: (indentChars jnd ++ ']' :: rest))))
                  = ('\n' :: indentChars ind) ++ (serVal ind x
                    ++ (serElems ind xs ++ '\n' :: (indentChars jnd ++ ']' :: rest)))
                from rfl]
              rw [parseVal_ws f _ _ (ws_nl_indent ind)]
              apply ihv x ind _ ?_ (serElems_noDigitHead _ _ _)
              simp only [lsize] at hsz
              omega
            have he := ihe xs (acc ++ [x]) ind jnd rest
              (by simp only [lsize] at hsz; omega) hnd
            simp [hpv, he]
      · -- member lists
        intro kvs acc ind jnd rest hsz hnd
        cases kvs with
        | nil =>
            rw [show serMembers ind [] ++ '\n' :: (indentChars jnd ++ '\x7d' :: rest)
                = ('\n' :: indentChars jnd) ++ ('\x7d' :: rest)
              from by simp [serMembers]]
            rw [parseMembers.eq_def]
            dsimp only
            rw [skipWs_append _ _ (ws_nl_indent jnd),
              skipWs_cons_of_not _ _ (by decide)]
            simp
        | cons kv kvs =>
            obtain ⟨k1, v1⟩ := kv
            rw [show serMembers ind ((k1, v1) :: kvs)
                  ++ '\n' :: (indentChars jnd ++ '\x7d' :: rest)
                = ',' :: ('\n' :: (indentChars ind ++ (quoteStr k1
                    ++ ':' :: ' ' :: (serVal ind v1 ++ (serMembers ind kvs
                      ++ '\n' :: (indentChars jnd ++ '\x7d' :: rest))))))
              from by simp [serMembers]]
            rw [parseMembers.eq_def]
            dsimp only
            rw [skipWs_cons_of_not _ _ (by decide)]
            have hpm : parseMember f ('\n' :: (indentChars ind ++ (quoteStr k1
                ++ ':' :: ' ' :: (serVal ind v1 ++ (serMembers ind kvs
                  ++ '\n' :: (indentChars jnd ++ '\x7d' :: rest))))))
                = some ((k1, v1), serMembers ind kvs
                    ++ '\n' :: (indentChars jnd ++ '\x7d' :: rest)) := by
              rw [show '\n' :: (indentChars ind ++ (quoteStr k1
                  ++ ':' :: ' ' :: (serVal ind v1 ++ (serMembers ind kvs
                    ++ '\n' :: (indentChars jnd ++ '\x7d' :: rest)))))
                  = ('\n' :: indentChars ind) ++ (quoteStr k1
                    ++ ':' :: ' ' :: (serVal ind v1 ++ (serMembers ind kvs
                      ++ '\n' :: (indentChars jnd ++ '\x7d' :: rest))))
                from rfl]
              rw [parseMember_ws f _ _ (ws_nl_indent ind)]
              apply ihm k1 v1 ind _ ?_ (serMembers_noDigitHead _ _ _)
              simp only [msize] at hsz
              omega
            have hms := ihms kvs (acc ++ [(k1, v1)]) ind jnd rest
              (by simp only [msize] at hsz; omega) hnd
            simp [hpm, hms]

/-- Serialized length dominates the node count, so the `parseJson` fuel
`length + 1` always suffices. -/
theorem ser_length (n : Nat) :
    (∀ v ind, jsize v ≤ n → jsize v ≤ (serVal ind v).length) ∧
    (∀ xs ind, lsize xs ≤ n → lsize xs ≤ (serElems ind xs).length) ∧
    (∀ kvs ind, msize kvs ≤ n → msize kvs ≤ (serMembers ind kvs).length) := by
  induction n with
  | zero =>
      refine ⟨?_, ?_, ?_⟩
      · intro v ind h
        have := jsize_pos v
        omega
      · intro xs ind h
        omega
      · intro kvs ind h
        omega
  | succ m ih =>
      obtain ⟨ihv, ihe, ihm⟩ := ih
      refine ⟨?_, ?_, ?_⟩
      · intro v ind h
        cases v with
        | jnull => simp [serVal, jsize]
        | jbool b => cases b <;> simp [serVal, jsize]
        | jnum i =>
            have hpos : 0 < (natDec i.natAbs).length :=
              List.length_pos.mpr (natDec_ne_nil i.natAbs)
            by_cases hneg : i < 0
            · simp [serVal, jsize, intDec, hneg]
            · simp [serVal, jsize, intDec, hneg]
              omega
        | jstr s => simp [serVal, jsize, quoteStr]
        | jarr xs =>
            cases xs with
            | nil => simp [serVal, jsize, lsize]
            | cons x xs =>
                simp only [jsize, lsize] at h
                have h1 := ihv x (ind + 1) (by omega)
                have h2 := ihe xs (ind + 1) (by omega)
                simp only [serVal, jsize, lsize, List.length_cons,
                  List.length_append]
                omega
        | jobj kvs =>
            cases kvs with
            | nil => simp [serVal, jsize, msize]
            | cons kv kvs =>
                simp only [jsize, msize] at h
                have h1 := ihv kv.2 (ind + 1) (by omega)
                have h2 := ihm kvs (ind + 1) (by omega)
                simp only [serVal, jsize, msize, List.length_cons,
                  List.length_append]
                omega
      · intro xs ind h
        cases xs with
        | nil => simp [serElems, lsize]
        | cons x xs =>
            simp only [lsize] at h
            have h1 := ihv x ind (by omega)
            have h2 := ihe xs ind (by omega)
            simp only [serElems, lsize, List.length_cons, List.length_append]
            omega
      · intro kvs ind h
        cases kvs with
        | nil => simp [serMembers, msize]
        | cons kv kvs =>
            simp only [msize] at h
            have h1 := ihv kv.2 ind (by omega)
            have h2 := ihm kvs ind (by omega)
            simp only [serMembers, msize, List.length_cons, List.length_append]
            omega

/-- Core round-trip: re-parsing a serialized document yields it back. -/
theorem parseJson_writeData (d : JVal) : parseJson (writeData d) = some d := by
  have hlen : jsize d ≤ (serVal 0 d).length + 1 := by
    have := (ser_length (jsize d)).1 d 0 le_rfl
    omega
  have hp := (parse_ser ((serVal 0 d).length + 1)).1 d 0 [] hlen trivial
  rw [List.append_nil] at hp
  unfold parseJson
  rw [show (writeData d).data = serVal 0 d from rfl,
    show (writeData d).length = (serVal 0 d).length from rfl, hp]
  rfl

/-- **C9**: round-trip — for every well-formed persisted document (one
that `readData` parses), `writeData` followed by `readData` with no
intervening mutation reproduces the same document: same records, same
field values, order preserved. -/
theorem saveLoadRoundTrip (c : String) (d : JVal)
    (_h : readData c = some d) :
    readData (writeData d) = some d :=
  parseJson_writeData d

set_option maxRecDepth 40000 in
/-- Witness for `saveLoadRoundTrip` on the empty document text. -/
theorem saveLoadRoundTrip_witness :
    readData (writeData (.jobj [("properties", .jarr [])]))
      = some (.jobj [("properties", .jarr [])]) :=
  saveLoadRoundTrip "\x7b\"properties\": []\x7d"
    (.jobj [("properties", .jarr [])]) (by rfl)
